/-
Verification of the spectra rebinning script (add_noise.py).

The script's functions are shallowly embedded here:
* exact rational arithmetic (ℚ) stands in for floating point in the
  rebinner and renormalizer;
* real numbers (ℝ) stand in for floating point where the code uses
  logarithms and square roots (get_wave, add_noise);
* numpy array operations are modelled by corresponding list functions;
* the in-place mutation of the inverse-variance buffer inside
  rebin_to_common is modelled by returning the final state of that
  buffer alongside the result (explicit state passing);
* numpy's random generator is modelled by an abstract deterministic
  generator structure: a state type together with draw functions that
  consume and return states.
-/

import Mathlib

set_option maxHeartbeats 1000000

/-! ### Numpy / Python primitives as list functions -/

/-- Python indexing `l[i]` with negative indices counting from the end.
Out-of-range access returns a junk value 0 (Python would raise). -/
def pyGet (l : List ℚ) (i : ℤ) : ℚ :=
  if 0 ≤ i then l.getD i.toNat 0 else l.getD (l.length - (-i).toNat) 0

/-- Python slicing `l[i:j]` for nonnegative bounds. -/
def pySlice (l : List ℚ) (i j : ℕ) : List ℚ :=
  (l.drop i).take (j - i)

/-- `np.argmax` on a boolean array: index of the first `true`,
or 0 when every entry is `false` (or the list is empty). -/
def npArgmax (l : List Bool) : ℕ :=
  if l.any id then l.findIdx id else 0

/-- Boolean-mask indexing `xs[mask]`. -/
def maskFilter {α : Type} (mask : List Bool) (xs : List α) : List α :=
  ((mask.zip xs).filter (fun p => p.1)).map (fun p => p.2)

/-- `np.min` on an integer array (junk 0 on empty; callers guard). -/
def npMinZ : List ℤ → ℤ
  | [] => 0
  | x :: xs => xs.foldl min x

/-- `np.max` on an integer array (junk 0 on empty; callers guard). -/
def npMaxZ : List ℤ → ℤ
  | [] => 0
  | x :: xs => xs.foldl max x

/-- `np.bincount(bins, weights=ws, minlength=n)` under the assumption,
true at every call site here, that all bins lie in `[0, n)`:
entry `i` is the sum of the weights whose bin equals `i`. -/
def npBincount (n : ℕ) (bins : List ℤ) (ws : List ℚ) : List ℚ :=
  (List.range n).map (fun (i : ℕ) =>
    (((bins.zip ws).filter (fun p => p.1 == (i : ℤ))).map (fun p => p.2)).sum)

/-- `np.median`: middle element of the sorted data, or the average of
the two middle elements for even length (junk 0 on empty). -/
def insertSorted (x : ℚ) : List ℚ → List ℚ
  | [] => [x]
  | y :: ys => if x ≤ y then x :: y :: ys else y :: insertSorted x ys

def sortQ (l : List ℚ) : List ℚ := l.foldr insertSorted []

def npMedian (l : List ℚ) : ℚ :=
  let s := sortQ l
  let n := l.length
  if n = 0 then 0
  else if n % 2 = 1 then s.getD (n / 2) 0
  else (s.getD (n / 2 - 1) 0 + s.getD (n / 2) 0) / 2

/-- `scipy.ndimage.binary_erosion` in one dimension with the default
size-3 structuring element and `border_value=1`: a cell survives iff
it and both its neighbours are set, where cells beyond either end of
the array count as set. -/
def binaryErosion (m : List Bool) : List Bool :=
  (List.range m.length).map (fun i =>
    (if i = 0 then true else m.getD (i - 1) true) && m.getD i true && m.getD (i + 1) true)

/-- A logarithmically indexed uniform grid `a, a+dl, a+2*dl, ...`
(the form every log-wavelength grid in the script takes). -/
def arithGrid (a dl : ℚ) (m : ℕ) : List ℚ :=
  (List.range m).map (fun (j : ℕ) => a + (j : ℚ) * dl)

/-! ### rebin_to_common -/

/-- Result of `rebin_to_common`.  The code has two distinct shapes of
return value: the pair `(None, None)` on the two early exits, and the
triple `(flux, ivar * mask, mask)` on success. -/
inductive RebinResult where
  | nones2 : RebinResult
  | data : List ℚ → List ℚ → List Bool → RebinResult
deriving DecidableEq

/-- `bin_low = np.floor((w_in - l_min) / dl).astype(int)`. -/
def binLow (w_in w_out : List ℚ) : List ℤ :=
  w_in.map (fun x => Int.floor ((x - pyGet w_out 0) / (pyGet w_out 1 - pyGet w_out 0)))

/-- `good_low = (bin_low >= 0) & (bin_low < nbins_final)`. -/
def goodLow (nbins_final : ℕ) (w_in w_out : List ℚ) : List Bool :=
  (binLow w_in w_out).map (fun b => decide (0 ≤ b ∧ b < (nbins_final : ℤ)))

/-- `bin_high = bin_low + 1`. -/
def binHigh (w_in w_out : List ℚ) : List ℤ :=
  (binLow w_in w_out).map (fun b => b + 1)

/-- `good_high = (bin_high >= 0) & (bin_high < nbins_final)`. -/
def goodHigh (nbins_final : ℕ) (w_in w_out : List ℚ) : List Bool :=
  (binHigh w_in w_out).map (fun b => decide (0 ≤ b ∧ b < (nbins_final : ℤ)))

/-- `not np.any(good_low) or not np.any(good_high)`: not enough of the
input grid falls into the common grid. -/
def rebinNoOverlap (nbins_final : ℕ) (w_in w_out : List ℚ) : Bool :=
  !((goodLow nbins_final w_in w_out).any id) || !((goodHigh nbins_final w_in w_out).any id)

/-- The `(d_low, d_high)` pair of `rebin_to_common`: the generic
argmax-based values, redone anchored at the boundary when the input
grid reaches the bottom bin 0 or the top bin of the output grid. -/
def rebinDs (nbins_final : ℕ) (w_in w_out : List ℚ) : ℚ × ℚ :=
  let l_min := pyGet w_out 0
  let idx_in := (npArgmax (w_in.map (fun x => decide (x > l_min))) : ℤ)
  let idx_out := (npArgmax (w_out.map (fun x => decide (x > pyGet w_in idx_in))) : ℤ)
  let d_low := pyGet w_out idx_out - pyGet w_in idx_in
  let d_high := pyGet w_in (idx_in + 1) - pyGet w_out idx_out
  if npMinZ (maskFilter (goodLow nbins_final w_in w_out) (binLow w_in w_out)) = 0 then
    -- the input grid reaches the bottom of the common grid
    let base := pyGet w_out 0
    let idx_in1 := (npArgmax ((w_in.drop 1).map (fun x => decide (x > l_min))) : ℤ)
    let idx_out1 := (npArgmax (w_out.map (fun x => decide (x > pyGet w_in idx_in1))) : ℤ) - 1
    let s : ℤ × ℤ × ℚ :=
      if idx_in1 = -1 then (idx_in1 + 1, idx_out1 + 1, pyGet w_out (idx_out1 + 1))
      else (idx_in1, idx_out1, base)
    (s.2.2 - pyGet w_in s.1, pyGet w_in (s.1 + 1) - s.2.2)
  else if npMaxZ (maskFilter (goodHigh nbins_final w_in w_out) (binHigh w_in w_out))
      = (w_out.length : ℤ) - 1 then
    -- the input grid overlaps the top of the common grid
    let idx_in2 := (npArgmax (w_in.map (fun x => decide (x > pyGet w_out (-1)))) : ℤ) - 1
    (pyGet w_out (-1) - pyGet w_in idx_in2, pyGet w_in (idx_in2 + 1) - pyGet w_out (-1))
  else (d_low, d_high)

/-- `percent_low = d_low / dl`, `percent_high = d_high / dl`. -/
def rebinPercents (nbins_final : ℕ) (w_in w_out : List ℚ) : ℚ × ℚ :=
  let dl := pyGet w_out 1 - pyGet w_out 0
  ((rebinDs nbins_final w_in w_out).1 / dl, (rebinDs nbins_final w_in w_out).2 / dl)

/-- The in-place inversion `var[nz] = 1 / var[nz]` of the nonzero
entries of the inverse-variance buffer. -/
def invertNZ (iv : List ℚ) : List ℚ :=
  iv.map (fun x => if x ≠ 0 then 1 / x else x)

/-- `c_low + c_high`: the accumulated output flux. -/
def rebinFlOut (nbins_final : ℕ) (w_in w_out fl : List ℚ) : List ℚ :=
  let pl := (rebinPercents nbins_final w_in w_out).1
  let ph := (rebinPercents nbins_final w_in w_out).2
  let gl := goodLow nbins_final w_in w_out
  let gh := goodHigh nbins_final w_in w_out
  let c_low := npBincount w_out.length (maskFilter gl (binLow w_in w_out))
    ((maskFilter gl fl).map (fun x => x * pl))
  let c_high := npBincount w_out.length (maskFilter gh (binHigh w_in w_out))
    ((maskFilter gh fl).map (fun x => x * ph))
  List.zipWith (· + ·) c_low c_high

/-- `var_low + var_high`: the accumulated output variance
(overlap fractions squared, per linear error propagation). -/
def rebinVarOut (nbins_final : ℕ) (w_in w_out iv : List ℚ) : List ℚ :=
  let pl := (rebinPercents nbins_final w_in w_out).1
  let ph := (rebinPercents nbins_final w_in w_out).2
  let gl := goodLow nbins_final w_in w_out
  let gh := goodHigh nbins_final w_in w_out
  let var := invertNZ iv
  let var_low := npBincount w_out.length (maskFilter gl (binLow w_in w_out))
    ((maskFilter gl var).map (fun x => x * pl ^ 2))
  let var_high := npBincount w_out.length (maskFilter gh (binHigh w_in w_out))
    ((maskFilter gh var).map (fun x => x * ph ^ 2))
  List.zipWith (· + ·) var_low var_high

/-- The eroded coverage mask: one where the accumulated flux is
nonzero, then a one-bin binary erosion with set borders. -/
def rebinMask (nbins_final : ℕ) (w_in w_out fl : List ℚ) : List Bool :=
  binaryErosion ((rebinFlOut nbins_final w_in w_out fl).map (fun x => decide (x ≠ 0)))

/-- The variance-to-inverse-variance conversion of `rebin_to_common`:
entries of magnitude above `1e-2` are inverted, the rest are left
untouched (`iv_out = var_out; nz = np.abs(var_out) > 1e-2;
iv_out[nz] = 1 / var_out[nz]`). -/
def ivFromVar (var : List ℚ) : List ℚ :=
  var.map (fun v => if |v| > 1 / 100 then 1 / v else v)

/-- The returned inverse variance `iv_out * mask`. -/
def rebinIvMasked (nbins_final : ℕ) (w_in w_out fl iv : List ℚ) : List ℚ :=
  List.zipWith (fun v b => if b then v else 0)
    (ivFromVar (rebinVarOut nbins_final w_in w_out iv))
    (rebinMask nbins_final w_in w_out fl)

/-- `rebin_to_common(w_in, w_out, fl, iv, fl_idx)` with the module
global `nbins_final` passed explicitly.  The second component of the
result is the final state of the caller's inverse-variance array: the
line `var = iv` aliases the caller's buffer and `var[nz] = 1/var[nz]`
mutates it in place, so on the main path the buffer ends up holding
the variance, while both early exits leave it untouched. -/
def rebin_to_common (nbins_final : ℕ) (w_in w_out fl iv : List ℚ) (fl_idx : ℕ) :
    RebinResult × List ℚ :=
  if w_in.length < 1 then (.nones2, iv)
  else if rebinNoOverlap nbins_final w_in w_out then (.nones2, iv)
  else (.data (rebinFlOut nbins_final w_in w_out fl)
              (rebinIvMasked nbins_final w_in w_out fl iv)
              (rebinMask nbins_final w_in w_out fl),
        invertNZ iv)

/-- The three-way unpacking `fl_1, iv_1, m = rebin_to_common(...)`
performed by `rebin_all`: it succeeds on the triple but fails (raises
ValueError) on the pair `(None, None)`. -/
def unpack3 : RebinResult → Option (List ℚ × List ℚ × List Bool)
  | .nones2 => none
  | .data f i m => some (f, i, m)

/-! ### get_wave -/

/-- `get_wave(wavemin, wavemax, dloglam)`: `np.arange(n)` for a float
`n > 0` has `ceil n` entries, so the grid has `⌈n⌉₊` points. -/
noncomputable def get_wave (wavemin wavemax dloglam : ℝ) : List ℝ :=
  (List.range ⌈Real.logb 10 (wavemax / wavemin) / dloglam⌉₊).map
    (fun (i : ℕ) => (10 : ℝ) ^ (Real.logb 10 wavemin + dloglam * (i : ℝ)))

/-! ### add_noise -/

/-- numpy's seeded random generator, abstractly: a state type and
deterministic draw functions that consume and return states.
`default_rng` builds the initial state from the seed. -/
structure NumpyRNG (σ : Type) where
  default_rng : ℤ → σ
  poisson : σ → List ℝ → List ℝ × σ
  uniform : σ → ℝ → ℝ → ℝ × σ
  normal : σ → ℝ → ℝ → ℕ → List ℝ × σ

/-- `np.mean` (junk 0/0 = 0 on empty). -/
noncomputable def npMeanR (l : List ℝ) : ℝ := l.sum / l.length

/-- The body of the `for i in range(len(fl_shift))` loop of
`add_noise`, threading the generator state through the iterations. -/
noncomputable def addNoiseLoop {σ : Type} (g : NumpyRNG σ) (flag : Bool)
    (flShift wShift : List (List ℝ)) :
    List ℕ → σ → List (List ℝ) × List (List ℝ) × σ
  | [], s => ([], [], s)
  | i :: rest, s =>
    let fli := flShift.getD i []
    let wi := wShift.getD i []
    let pr := if flag then g.poisson s (fli.map (fun x => max x 0)) else (fli, s)
    let x_poisson := List.zipWith (· / ·) pr.1 wi
    let var_poisson := x_poisson
    let signal := npMeanR (x_poisson.map (fun x => x ^ 2))
    let ur := g.uniform pr.2 (1 / 2) (3 / 2)
    let noise_sigma := Real.sqrt signal / ur.1
    let nr := g.normal ur.2 0 noise_sigma fli.length
    let var_noise := noise_sigma ^ 2
    let out : List ℝ × List ℝ :=
      if flag then
        (List.zipWith (· + ·) x_poisson nr.1,
         var_poisson.map (fun v => 1 / (v + var_noise)))
      else
        (List.zipWith (· / ·) fli wi,
         (List.zipWith (· / ·) fli wi).map (fun x => if x = 0 then (0 : ℝ) else 1))
    let tail := addNoiseLoop g flag flShift wShift rest nr.2
    (out.1 :: tail.1, out.2 :: tail.2.1, tail.2.2)

/-- `add_noise(fl, seed, add_noise)`.  The module globals `fl_shift`
and `w_shift` are passed explicitly; the `fl` parameter is kept with
the position it has in the source.  A fresh generator state is built
from the seed on every call. -/
noncomputable def add_noise {σ : Type} (g : NumpyRNG σ) (fl : List (List ℝ)) (seed : ℤ)
    (flShift wShift : List (List ℝ)) (flag : Bool) :
    List (List ℝ) × List (List ℝ) :=
  let s0 := g.default_rng seed
  let r := addNoiseLoop g flag flShift wShift (List.range flShift.length) s0
  (r.1, r.2.1)

/-! ### Renormalizer (the `renorm` block of rebin_all) -/

/-- `norm_min = np.argmax(w_scale > waves[i][0])` and
`norm_max = np.argmax(w_scale > waves[i][-1])`. -/
def norm_bounds (w_scale waves_i : List ℚ) : ℕ × ℕ :=
  (npArgmax (w_scale.map (fun x => decide (x > pyGet waves_i 0))),
   npArgmax (w_scale.map (fun x => decide (x > pyGet waves_i (-1)))))

/-- `norm_val = np.median(spectra_for_norm[norm_min:norm_max])`. -/
def norm_val_of (w_scale spectra_for_norm waves_i : List ℚ) : ℚ :=
  npMedian (pySlice spectra_for_norm (norm_bounds w_scale waves_i).1
    (norm_bounds w_scale waves_i).2)

/-- `spec_val = np.median(fl_1[fl_1 != 0])`. -/
def spec_val_of (fl1 : List ℚ) : ℚ :=
  npMedian (fl1.filter (fun x => decide (x ≠ 0)))

/-- `scale = norm_val / np.abs(spec_val)`. -/
def renorm_scale (w_scale spectra_for_norm waves_i fl1 : List ℚ) : ℚ :=
  norm_val_of w_scale spectra_for_norm waves_i / |spec_val_of fl1|

/-- `normed = fl_1 * scale; normed_iv = iv_1 / scale**2`. -/
def renorm_apply (scale : ℚ) (fl1 iv1 : List ℚ) : List ℚ × List ℚ :=
  (fl1.map (fun x => x * scale), iv1.map (fun x => x / scale ^ 2))

/-! ### Pure formulation of the rebinner -/

/-- Modelled from the spec: the in-place variance inversion "should be
modeled as pure transformations returning new arrays" and "must
produce the same final values as a pure functional formulation".  The
rebinning computation with no buffer state: it returns only the result
and never touches the input inverse-variance list. -/
def rebin_spec_pure (nbins_final : ℕ) (w_in w_out fl iv : List ℚ) (fl_idx : ℕ) :
    RebinResult :=
  if w_in.length < 1 then .nones2
  else if rebinNoOverlap nbins_final w_in w_out then .nones2
  else .data (rebinFlOut nbins_final w_in w_out fl)
             (rebinIvMasked nbins_final w_in w_out fl iv)
             (rebinMask nbins_final w_in w_out fl)

/-! ### List helper lemmas -/

lemma getD_map_range {α : Type} (f : ℕ → α) (n i : ℕ) (d : α) (hi : i < n) :
    ((List.range n).map f).getD i d = f i := by
  rw [List.getD_eq_getElem _ d (by simpa using hi)]
  simp

lemma length_arithGrid (a dl : ℚ) (m : ℕ) : (arithGrid a dl m).length = m := by
  unfold arithGrid
  rw [List.length_map, List.length_range]

lemma getD_arithGrid (a dl : ℚ) (m i : ℕ) (hi : i < m) :
    (arithGrid a dl m).getD i 0 = a + (i : ℚ) * dl := by
  unfold arithGrid
  exact getD_map_range _ m i 0 hi

lemma pyGet_natCast (l : List ℚ) (i : ℕ) : pyGet l (i : ℤ) = l.getD i 0 := by
  simp [pyGet]

lemma pyGet_arithGrid_nat (a dl : ℚ) (m i : ℕ) (hi : i < m) :
    pyGet (arithGrid a dl m) (i : ℤ) = a + (i : ℚ) * dl := by
  rw [pyGet_natCast]; exact getD_arithGrid a dl m i hi

lemma findIdx_id_eq (l : List Bool) (i : ℕ) (hi : i < l.length)
    (h1 : ∀ j, j < i → l.getD j false = false) (h2 : l.getD i false = true) :
    l.findIdx id = i := by
  induction l generalizing i with
  | nil => simp at hi
  | cons b t ih =>
    cases i with
    | zero =>
      have hb : b = true := by simpa using h2
      simp [List.findIdx_cons, hb]
    | succ j =>
      have hb : b = false := by simpa using h1 0 (Nat.succ_pos _)
      rw [List.findIdx_cons]
      simp only [hb, id, cond_false]
      have := ih j (by simpa using hi)
        (fun j2 hj2 => by simpa using h1 (j2 + 1) (by omega))
        (by simpa using h2)
      omega

lemma npArgmax_eq (l : List Bool) (i : ℕ) (hi : i < l.length)
    (h1 : ∀ j, j < i → l.getD j false = false) (h2 : l.getD i false = true) :
    npArgmax l = i := by
  have hmem : true ∈ l := by
    have hg : l[i] = true := by rw [← List.getD_eq_getElem l false hi]; exact h2
    exact hg ▸ List.getElem_mem hi
  have hany : l.any id = true := List.any_eq_true.mpr ⟨true, hmem, rfl⟩
  unfold npArgmax
  rw [if_pos hany]
  exact findIdx_id_eq l i hi h1 h2

lemma maskFilter_replicate_true {α : Type} : ∀ (xs : List α),
    maskFilter (List.replicate xs.length true) xs = xs
  | [] => rfl
  | x :: t => by
    have ih := maskFilter_replicate_true t
    simp only [List.length_cons, List.replicate_succ, maskFilter, List.zip_cons_cons,
      List.filter_cons] at ih ⊢
    simpa using ih

lemma foldl_min_eq (l : List ℤ) (x : ℤ) (h : ∀ y ∈ l, x ≤ y) : l.foldl min x = x := by
  induction l generalizing x with
  | nil => rfl
  | cons z t ih =>
    have hz : x ≤ z := h z (by simp)
    rw [List.foldl_cons, min_eq_left hz]
    exact ih x (fun y hy => h y (by simp [hy]))

lemma foldl_max_eq (l : List ℤ) (x M : ℤ) (hm : M ∈ x :: l) (hb : ∀ y ∈ x :: l, y ≤ M) :
    l.foldl max x = M := by
  induction l generalizing x with
  | nil =>
    simp at hm; subst hm; rfl
  | cons z t ih =>
    rw [List.foldl_cons]
    apply ih (max x z)
    · rcases List.mem_cons.mp hm with h | h
      · have hzx : z ≤ M := hb z (by simp)
        subst h
        rw [max_eq_left hzx]
        exact List.mem_cons_self _ _
      · rcases List.mem_cons.mp h with h2 | h2
        · have hxz : x ≤ M := hb x (by simp)
          subst h2
          rw [max_eq_right hxz]
          exact List.mem_cons_self _ _
        · exact List.mem_cons_of_mem _ h2
    · intro y hy
      rcases List.mem_cons.mp hy with h | h
      · subst h
        exact max_le (hb x (by simp)) (hb z (by simp))
      · exact hb y (by simp [h])

lemma sum_map_add {α : Type} (l : List α) (f g : α → ℚ) :
    (l.map (fun x => f x + g x)).sum = (l.map f).sum + (l.map g).sum := by
  induction l with
  | nil => simp
  | cons x t ih => simp only [List.map_cons, List.sum_cons, ih]; ring

lemma sum_zipWith_add : ∀ (l1 l2 : List ℚ), l1.length = l2.length →
    (List.zipWith (· + ·) l1 l2).sum = l1.sum + l2.sum
  | [], [], _ => by simp
  | [], _ :: _, h => by simp at h
  | _ :: _, [], h => by simp at h
  | x :: t, y :: u, h => by
    have ih := sum_zipWith_add t u (by simpa using h)
    simp only [List.zipWith_cons_cons, List.sum_cons, ih]
    ring

lemma sum_map_mul_const (l : List ℚ) (c : ℚ) :
    (l.map (fun x => x * c)).sum = l.sum * c := by
  induction l with
  | nil => simp
  | cons x t ih => simp only [List.map_cons, List.sum_cons, ih]; ring

lemma zipWith_add_map_range (f g : ℕ → ℚ) (n : ℕ) :
    List.zipWith (· + ·) ((List.range n).map f) ((List.range n).map g)
      = (List.range n).map (fun i => f i + g i) := by
  induction n with
  | zero => rfl
  | succ n ih =>
    rw [List.range_succ, List.map_append, List.map_append, List.map_append,
      List.zipWith_append _ _ _ _ _ (by simp), ih]
    rfl

lemma sum_indicator_range (n : ℕ) (b : ℤ) (w : ℚ) (h0 : 0 ≤ b) (hn : b < (n : ℤ)) :
    ((List.range n).map (fun (i : ℕ) => if b = (i : ℤ) then w else 0)).sum = w := by
  induction n with
  | zero => exact absurd hn (by omega)
  | succ n ih =>
    rw [List.range_succ, List.map_append, List.sum_append]
    by_cases hb : b = (n : ℤ)
    · have hz : ((List.range n).map (fun (i : ℕ) => if b = (i : ℤ) then w else 0)).sum = 0 := by
        apply List.sum_eq_zero
        intro x hx
        rw [List.mem_map] at hx
        obtain ⟨i, hi, rfl⟩ := hx
        rw [List.mem_range] at hi
        rw [if_neg (by omega)]
      rw [hz]
      simp [hb]
    · have hbn : b < (n : ℤ) := by omega
      simp [ih hbn, hb]

lemma length_npBincount (n : ℕ) (bins : List ℤ) (ws : List ℚ) :
    (npBincount n bins ws).length = n := by
  unfold npBincount
  rw [List.length_map, List.length_range]

lemma npBincount_cons (n : ℕ) (b : ℤ) (w : ℚ) (bins : List ℤ) (ws : List ℚ) :
    npBincount n (b :: bins) (w :: ws)
      = List.zipWith (· + ·) ((List.range n).map (fun (i : ℕ) => if b = (i : ℤ) then w else 0))
          (npBincount n bins ws) := by
  unfold npBincount
  rw [zipWith_add_map_range]
  apply List.map_congr_left
  intro i _
  simp only [List.zip_cons_cons, List.filter_cons]
  by_cases hb : b = (i : ℤ)
  · simp [hb]
  · simp [hb]

lemma sum_npBincount (n : ℕ) : ∀ (bins : List ℤ) (ws : List ℚ), bins.length = ws.length →
    (∀ x ∈ bins, 0 ≤ x ∧ x < (n : ℤ)) → (npBincount n bins ws).sum = ws.sum
  | [], ws, h, _ => by
    cases ws with
    | nil => simp [npBincount]
    | cons y u => simp at h
  | b :: t, ws, h, hb => by
    cases ws with
    | nil => simp at h
    | cons w u =>
      have ih := sum_npBincount n t u (by simpa using h)
        (fun x hx => hb x (List.mem_cons_of_mem _ hx))
      rw [npBincount_cons,
        sum_zipWith_add _ _ (by simp [length_npBincount]),
        sum_indicator_range n b w (hb b (by simp)).1 (hb b (by simp)).2, ih]
      simp

/-! ### The rebinner on uniform grids with shared step -/

lemma maskFilter_replicate_true_len {α : Type} (xs : List α) (m : ℕ) (h : xs.length = m) :
    maskFilter (List.replicate m true) xs = xs := by
  subst h
  exact maskFilter_replicate_true xs

lemma any_replicate_true (m : ℕ) (hm : 1 ≤ m) : (List.replicate m true).any id = true := by
  cases m with
  | zero => omega
  | succ m2 => simp

lemma npMinZ_eq (l : List ℤ) (M : ℤ) (hm : M ∈ l) (hb : ∀ y ∈ l, M ≤ y) :
    npMinZ l = M := by
  cases l with
  | nil => simp at hm
  | cons x t =>
    show t.foldl min x = M
    induction t generalizing x with
    | nil =>
      simp only [List.foldl_nil]
      simp at hm
      omega
    | cons z u ih =>
      rw [List.foldl_cons]
      apply ih (min x z)
      · rcases List.mem_cons.mp hm with h | h
        · subst h
          have hz : M ≤ z := hb z (by simp)
          rw [min_eq_left hz]
          exact List.mem_cons_self _ _
        · rcases List.mem_cons.mp h with h2 | h2
          · subst h2
            have hx : M ≤ x := hb x (by simp)
            rw [min_eq_right hx]
            exact List.mem_cons_self _ _
          · exact List.mem_cons_of_mem _ h2
      · intro y hy
        rcases List.mem_cons.mp hy with h | h
        · subst h
          exact le_min (hb x (by simp)) (hb z (by simp))
        · exact hb y (by simp [h])

lemma npMaxZ_eq (l : List ℤ) (M : ℤ) (hm : M ∈ l) (hb : ∀ y ∈ l, y ≤ M) :
    npMaxZ l = M := by
  cases l with
  | nil => simp at hm
  | cons x t =>
    show t.foldl max x = M
    exact foldl_max_eq t x M hm hb

lemma pyGet_arithGrid_zero (b dl : ℚ) (n : ℕ) (hn : 1 ≤ n) :
    pyGet (arithGrid b dl n) 0 = b := by
  have h := pyGet_arithGrid_nat b dl n 0 (by omega)
  simpa using h

lemma pyGet_arithGrid_one (b dl : ℚ) (n : ℕ) (hn : 2 ≤ n) :
    pyGet (arithGrid b dl n) 1 = b + dl := by
  have h := pyGet_arithGrid_nat b dl n 1 (by omega)
  simpa using h

lemma binLow_arith (a b dl : ℚ) (m n k : ℕ) (hdl : 0 < dl) (hn2 : 2 ≤ n)
    (hk : ⌊(a - b) / dl⌋ = (k : ℤ)) :
    binLow (arithGrid a dl m) (arithGrid b dl n)
      = (List.range m).map (fun (j : ℕ) => (k : ℤ) + (j : ℤ)) := by
  unfold binLow
  rw [pyGet_arithGrid_zero b dl n (by omega), pyGet_arithGrid_one b dl n hn2]
  have hd : b + dl - b = dl := by ring
  rw [hd]
  unfold arithGrid
  rw [List.map_map]
  apply List.map_congr_left
  intro j _
  simp only [Function.comp]
  have hdiv : (a + (j : ℚ) * dl - b) / dl = (a - b) / dl + (j : ℚ) := by
    field_simp
    ring
  rw [hdiv, Int.floor_add_nat, hk]

lemma binHigh_arith (a b dl : ℚ) (m n k : ℕ) (hdl : 0 < dl) (hn2 : 2 ≤ n)
    (hk : ⌊(a - b) / dl⌋ = (k : ℤ)) :
    binHigh (arithGrid a dl m) (arithGrid b dl n)
      = (List.range m).map (fun (j : ℕ) => (k : ℤ) + (j : ℤ) + 1) := by
  unfold binHigh
  rw [binLow_arith a b dl m n k hdl hn2 hk, List.map_map]
  rfl

lemma goodLow_arith (a b dl : ℚ) (m n k : ℕ) (hdl : 0 < dl) (hn2 : 2 ≤ n)
    (hk : ⌊(a - b) / dl⌋ = (k : ℤ)) (hkm : k + m ≤ n) :
    goodLow n (arithGrid a dl m) (arithGrid b dl n) = List.replicate m true := by
  unfold goodLow
  rw [binLow_arith a b dl m n k hdl hn2 hk, List.map_map]
  apply List.eq_replicate_iff.mpr
  refine ⟨by rw [List.length_map, List.length_range], ?_⟩
  intro x hx
  rw [List.mem_map] at hx
  obtain ⟨j, hj, rfl⟩ := hx
  rw [List.mem_range] at hj
  simp only [Function.comp, decide_eq_true_eq]
  omega

lemma goodHigh_arith (a b dl : ℚ) (m n k : ℕ) (hdl : 0 < dl) (hn2 : 2 ≤ n)
    (hk : ⌊(a - b) / dl⌋ = (k : ℤ)) (hkm : k + m + 1 ≤ n) :
    goodHigh n (arithGrid a dl m) (arithGrid b dl n) = List.replicate m true := by
  unfold goodHigh
  rw [binHigh_arith a b dl m n k hdl hn2 hk, List.map_map]
  apply List.eq_replicate_iff.mpr
  refine ⟨by rw [List.length_map, List.length_range], ?_⟩
  intro x hx
  rw [List.mem_map] at hx
  obtain ⟨j, hj, rfl⟩ := hx
  rw [List.mem_range] at hj
  simp only [Function.comp, decide_eq_true_eq]
  omega

lemma rebinNoOverlap_interior (a b dl : ℚ) (m n k : ℕ) (hdl : 0 < dl) (hn2 : 2 ≤ n)
    (hk : ⌊(a - b) / dl⌋ = (k : ℤ)) (hm : 1 ≤ m) (hkm : k + m + 1 ≤ n) :
    rebinNoOverlap n (arithGrid a dl m) (arithGrid b dl n) = false := by
  unfold rebinNoOverlap
  rw [goodLow_arith a b dl m n k hdl hn2 hk (by omega),
    goodHigh_arith a b dl m n k hdl hn2 hk hkm,
    any_replicate_true m hm]
  rfl

lemma argmax_gt_arithGrid (c b dl : ℚ) (n i : ℕ) (hi : i < n)
    (hlow : ∀ j : ℕ, j < i → b + (j : ℚ) * dl ≤ c) (hhigh : c < b + (i : ℚ) * dl) :
    npArgmax ((arithGrid b dl n).map (fun x => decide (x > c))) = i := by
  unfold arithGrid
  rw [List.map_map]
  apply npArgmax_eq _ i
  · rw [List.length_map, List.length_range]
    exact hi
  · intro j hj
    rw [getD_map_range _ n j false (lt_trans hj hi)]
    simp only [Function.comp, decide_eq_false_iff_not, not_lt]
    exact hlow j hj
  · rw [getD_map_range _ n i false hi]
    simp only [Function.comp, decide_eq_true_eq]
    exact hhigh

lemma rebinDs_interior (a b dl : ℚ) (m n k : ℕ) (hdl : 0 < dl) (hm : 2 ≤ m)
    (hk : ⌊(a - b) / dl⌋ = (k : ℤ)) (hk1 : 1 ≤ k) (hkn : k + m + 2 ≤ n) :
    rebinDs n (arithGrid a dl m) (arithGrid b dl n)
      = (b + ((k : ℚ) + 1) * dl - a, a + dl - (b + ((k : ℚ) + 1) * dl)) := by
  have hn2 : 2 ≤ n := by omega
  have hque : ((k : ℚ)) ≤ (a - b) / dl := by
    have h := Int.floor_le ((a - b) / dl)
    rw [hk] at h
    exact_mod_cast h
  have hqlt : (a - b) / dl < (k : ℚ) + 1 := by
    have h := Int.lt_floor_add_one ((a - b) / dl)
    rw [hk] at h
    push_cast at h
    exact h
  have hab : (k : ℚ) * dl ≤ a - b := by
    have h := mul_le_mul_of_nonneg_right hque (le_of_lt hdl)
    rwa [div_mul_cancel₀ _ (ne_of_gt hdl)] at h
  have hab2 : a - b < ((k : ℚ) + 1) * dl := (div_lt_iff hdl).mp hqlt
  have hk1q : (1 : ℚ) ≤ (k : ℚ) := by exact_mod_cast hk1
  have hba : b < a := by nlinarith
  have h0 : pyGet (arithGrid b dl n) 0 = b := pyGet_arithGrid_zero b dl n (by omega)
  have hidxin : npArgmax ((arithGrid a dl m).map (fun x => decide (x > b))) = 0 := by
    apply argmax_gt_arithGrid b a dl m 0 (by omega)
    · intro j hj
      omega
    · simpa using hba
  have hwin0 : pyGet (arithGrid a dl m) ((0 : ℕ) : ℤ) = a := by
    have h := pyGet_arithGrid_nat a dl m 0 (by omega)
    simpa using h
  have hidxout : npArgmax ((arithGrid b dl n).map (fun x => decide (x > a))) = k + 1 := by
    apply argmax_gt_arithGrid a b dl n (k + 1) (by omega)
    · intro j hj
      have hjk : (j : ℚ) ≤ (k : ℚ) := by exact_mod_cast Nat.lt_succ_iff.mp hj
      nlinarith
    · push_cast
      nlinarith
  have hwoutk : pyGet (arithGrid b dl n) (((k + 1 : ℕ) : ℤ)) = b + ((k : ℚ) + 1) * dl := by
    rw [pyGet_arithGrid_nat b dl n (k + 1) (by omega)]
    push_cast
    ring
  have hwin1 : pyGet (arithGrid a dl m) (((0 : ℕ) : ℤ) + 1) = a + dl := by
    have hc : (((0 : ℕ) : ℤ) + 1) = ((1 : ℕ) : ℤ) := by norm_num
    rw [hc, pyGet_arithGrid_nat a dl m 1 (by omega)]
    ring
  have hminval : npMinZ (maskFilter (goodLow n (arithGrid a dl m) (arithGrid b dl n))
      (binLow (arithGrid a dl m) (arithGrid b dl n))) = (k : ℤ) := by
    rw [goodLow_arith a b dl m n k hdl hn2 hk (by omega),
      binLow_arith a b dl m n k hdl hn2 hk,
      maskFilter_replicate_true_len _ m (by rw [List.length_map, List.length_range])]
    apply npMinZ_eq
    · rw [List.mem_map]
      refine ⟨0, by rw [List.mem_range]; omega, by simp⟩
    · intro y hy
      rw [List.mem_map] at hy
      obtain ⟨j, _, rfl⟩ := hy
      omega
  have hmaxval : npMaxZ (maskFilter (goodHigh n (arithGrid a dl m) (arithGrid b dl n))
      (binHigh (arithGrid a dl m) (arithGrid b dl n))) = (k : ℤ) + (m : ℤ) := by
    rw [goodHigh_arith a b dl m n k hdl hn2 hk (by omega),
      binHigh_arith a b dl m n k hdl hn2 hk,
      maskFilter_replicate_true_len _ m (by rw [List.length_map, List.length_range])]
    apply npMaxZ_eq
    · rw [List.mem_map]
      refine ⟨m - 1, by rw [List.mem_range]; omega, by push_cast; omega⟩
    · intro y hy
      rw [List.mem_map] at hy
      obtain ⟨j, hj, rfl⟩ := hy
      rw [List.mem_range] at hj
      omega
  simp only [rebinDs]
  rw [h0, hminval, hmaxval, length_arithGrid]
  rw [if_neg (by omega), if_neg (by omega)]
  rw [hidxin, hwin0, hidxout, hwoutk, hwin1]

lemma rebinPercents_interior (a b dl : ℚ) (m n k : ℕ) (hdl : 0 < dl) (hm : 2 ≤ m)
    (hk : ⌊(a - b) / dl⌋ = (k : ℤ)) (hk1 : 1 ≤ k) (hkn : k + m + 2 ≤ n) :
    rebinPercents n (arithGrid a dl m) (arithGrid b dl n)
      = ((b + ((k : ℚ) + 1) * dl - a) / dl, (a + dl - (b + ((k : ℚ) + 1) * dl)) / dl) := by
  unfold rebinPercents
  rw [pyGet_arithGrid_zero b dl n (by omega), pyGet_arithGrid_one b dl n (by omega),
    rebinDs_interior a b dl m n k hdl hm hk hk1 hkn]
  have hd : b + dl - b = dl := by ring
  rw [hd]

lemma rebinPercents_interior_sum (a b dl : ℚ) (m n k : ℕ) (hdl : 0 < dl) (hm : 2 ≤ m)
    (hk : ⌊(a - b) / dl⌋ = (k : ℤ)) (hk1 : 1 ≤ k) (hkn : k + m + 2 ≤ n) :
    (rebinPercents n (arithGrid a dl m) (arithGrid b dl n)).1
      + (rebinPercents n (arithGrid a dl m) (arithGrid b dl n)).2 = 1 := by
  rw [rebinPercents_interior a b dl m n k hdl hm hk hk1 hkn]
  rw [div_add_div_same]
  have hnum : (b + ((k : ℚ) + 1) * dl - a) + (a + dl - (b + ((k : ℚ) + 1) * dl)) = dl := by
    ring
  rw [hnum, div_self (ne_of_gt hdl)]

lemma rebinFlOut_sum_interior (a b dl : ℚ) (m n k : ℕ) (fl : List ℚ)
    (hdl : 0 < dl) (hm : 2 ≤ m)
    (hk : ⌊(a - b) / dl⌋ = (k : ℤ)) (hk1 : 1 ≤ k) (hkn : k + m + 2 ≤ n)
    (hfl : fl.length = m) :
    (rebinFlOut n (arithGrid a dl m) (arithGrid b dl n) fl).sum = fl.sum := by
  have hn2 : 2 ≤ n := by omega
  unfold rebinFlOut
  rw [goodLow_arith a b dl m n k hdl hn2 hk (by omega),
    goodHigh_arith a b dl m n k hdl hn2 hk (by omega),
    binLow_arith a b dl m n k hdl hn2 hk,
    binHigh_arith a b dl m n k hdl hn2 hk,
    length_arithGrid]
  dsimp only
  rw [maskFilter_replicate_true_len _ m (by rw [List.length_map, List.length_range]),
    maskFilter_replicate_true_len fl m hfl,
    maskFilter_replicate_true_len _ m (by rw [List.length_map, List.length_range])]
  rw [sum_zipWith_add _ _ (by rw [length_npBincount, length_npBincount])]
  rw [sum_npBincount n _ _ (by rw [List.length_map, List.length_range, List.length_map, hfl])
      (by intro x hx
          rw [List.mem_map] at hx
          obtain ⟨j, hj, rfl⟩ := hx
          rw [List.mem_range] at hj
          omega),
    sum_npBincount n _ _ (by rw [List.length_map, List.length_range, List.length_map, hfl])
      (by intro x hx
          rw [List.mem_map] at hx
          obtain ⟨j, hj, rfl⟩ := hx
          rw [List.mem_range] at hj
          omega)]
  rw [sum_map_mul_const, sum_map_mul_const, ← mul_add,
    rebinPercents_interior_sum a b dl m n k hdl hm hk hk1 hkn, mul_one]

/-- C2: for an input spectrum whose log-wavelength grid has the same
step `dl` as the output grid and lies strictly inside it (its first
sample falls `k` whole bins above the output origin with `1 ≤ k` and
`k + m + 2 ≤ n`), the two overlap fractions sum to exactly 1, the
rebinner takes its main path, and the total output flux equals the
total input flux: each input sample is exactly partitioned between its
two overlapping output bins. -/
theorem rebin_flux_conservation (a b dl : ℚ) (m n k : ℕ) (fl iv : List ℚ)
    (hdl : 0 < dl) (hm : 2 ≤ m)
    (hk : ⌊(a - b) / dl⌋ = (k : ℤ)) (hk1 : 1 ≤ k) (hkn : k + m + 2 ≤ n)
    (hfl : fl.length = m) :
    (rebinPercents n (arithGrid a dl m) (arithGrid b dl n)).1
        + (rebinPercents n (arithGrid a dl m) (arithGrid b dl n)).2 = 1 ∧
    (rebin_to_common n (arithGrid a dl m) (arithGrid b dl n) fl iv 0).1
        = RebinResult.data (rebinFlOut n (arithGrid a dl m) (arithGrid b dl n) fl)
            (rebinIvMasked n (arithGrid a dl m) (arithGrid b dl n) fl iv)
            (rebinMask n (arithGrid a dl m) (arithGrid b dl n) fl) ∧
    (rebinFlOut n (arithGrid a dl m) (arithGrid b dl n) fl).sum = fl.sum := by
  refine ⟨rebinPercents_interior_sum a b dl m n k hdl hm hk hk1 hkn, ?_,
    rebinFlOut_sum_interior a b dl m n k fl hdl hm hk hk1 hkn hfl⟩
  unfold rebin_to_common
  rw [if_neg (by rw [length_arithGrid]; omega),
    if_neg (by rw [rebinNoOverlap_interior a b dl m n k hdl (by omega) hk (by omega) (by omega)]
               simp)]

/-- Witness for `rebin_flux_conservation` at a concrete interior
configuration: input grid 2.5, 3.5, 4.5 with unit flux, output grid
0, 1, ..., 7. -/
theorem rebin_flux_conservation_witness :
    ((0 : ℚ) < 1 ∧ 2 ≤ 3 ∧ ⌊(((5 : ℚ)/2) - 0) / 1⌋ = ((2 : ℕ) : ℤ) ∧ 1 ≤ 2 ∧
      2 + 3 + 2 ≤ 8 ∧ ([1, 1, 1] : List ℚ).length = 3) ∧
    ((rebinPercents 8 (arithGrid (5/2) 1 3) (arithGrid 0 1 8)).1
        + (rebinPercents 8 (arithGrid (5/2) 1 3) (arithGrid 0 1 8)).2 = 1 ∧
     (rebin_to_common 8 (arithGrid (5/2) 1 3) (arithGrid 0 1 8) [1, 1, 1] [2, 2, 2] 0).1
        = RebinResult.data (rebinFlOut 8 (arithGrid (5/2) 1 3) (arithGrid 0 1 8) [1, 1, 1])
            (rebinIvMasked 8 (arithGrid (5/2) 1 3) (arithGrid 0 1 8) [1, 1, 1] [2, 2, 2])
            (rebinMask 8 (arithGrid (5/2) 1 3) (arithGrid 0 1 8) [1, 1, 1]) ∧
     (rebinFlOut 8 (arithGrid (5/2) 1 3) (arithGrid 0 1 8) [1, 1, 1]).sum
        = ([1, 1, 1] : List ℚ).sum) :=
  ⟨⟨by norm_num, by norm_num, by norm_num, by norm_num, by norm_num, by decide⟩,
   rebin_flux_conservation (5/2) 0 1 3 8 2 [1, 1, 1] [2, 2, 2]
     (by norm_num) (by norm_num) (by norm_num) (by norm_num) (by norm_num) (by decide)⟩

/-- C1: on a zero-length input wavelength grid, `rebin_to_common`
returns the two-component value `(None, None)` (constructor `nones2`),
not a three-component `(None, None, None)`; the three-way unpacking
performed by `rebin_all` therefore fails on it (modelled by `unpack3`
returning `none`).  The inverse-variance buffer is left untouched. -/
theorem rebin_empty_grid_two_nones (nb : ℕ) (w_out fl iv : List ℚ) (idx : ℕ) :
    (rebin_to_common nb [] w_out fl iv idx).1 = RebinResult.nones2 ∧
    unpack3 (rebin_to_common nb [] w_out fl iv idx).1 = none ∧
    (rebin_to_common nb [] w_out fl iv idx).2 = iv :=
  ⟨rfl, rfl, rfl⟩

/-- On the main path (nonempty input grid with overlap), the caller's
inverse-variance buffer comes back inverted at its nonzero entries. -/
lemma rebin_interior_state (a b dl : ℚ) (m n k : ℕ) (fl iv : List ℚ)
    (hdl : 0 < dl) (hm : 2 ≤ m)
    (hk : ⌊(a - b) / dl⌋ = (k : ℤ)) (hk1 : 1 ≤ k) (hkn : k + m + 2 ≤ n) :
    (rebin_to_common n (arithGrid a dl m) (arithGrid b dl n) fl iv 0).2 = invertNZ iv := by
  unfold rebin_to_common
  rw [if_neg (by rw [length_arithGrid]; omega),
    if_neg (by rw [rebinNoOverlap_interior a b dl m n k hdl (by omega) hk (by omega) (by omega)]
               simp)]

/-- On the main path, the result is the `data` triple. -/
lemma rebin_interior_result (a b dl : ℚ) (m n k : ℕ) (fl iv : List ℚ)
    (hdl : 0 < dl) (hm : 2 ≤ m)
    (hk : ⌊(a - b) / dl⌋ = (k : ℤ)) (hk1 : 1 ≤ k) (hkn : k + m + 2 ≤ n) :
    (rebin_to_common n (arithGrid a dl m) (arithGrid b dl n) fl iv 0).1
      = RebinResult.data (rebinFlOut n (arithGrid a dl m) (arithGrid b dl n) fl)
          (rebinIvMasked n (arithGrid a dl m) (arithGrid b dl n) fl iv)
          (rebinMask n (arithGrid a dl m) (arithGrid b dl n) fl) := by
  unfold rebin_to_common
  rw [if_neg (by rw [length_arithGrid]; omega),
    if_neg (by rw [rebinNoOverlap_interior a b dl m n k hdl (by omega) hk (by omega) (by omega)]
               simp)]

/-- C6 counterexample: `rebin_to_common` does not leave the caller's
inverse-variance array at its original values.  With input
inverse-variance `[2, 2, 2]` on a grid interior to the output grid,
the buffer ends up holding `[1/2, 1/2, 1/2]` after the call: the line
`var = iv` aliases the array and `var[nz] = 1/var[nz]` mutates it,
and it is never inverted back. -/
theorem rebin_mutates_caller_ivar :
    (rebin_to_common 8 (arithGrid (5/2) 1 3) (arithGrid 0 1 8) [1, 1, 1] [2, 2, 2] 0).2
        = [1/2, 1/2, 1/2] ∧
    (rebin_to_common 8 (arithGrid (5/2) 1 3) (arithGrid 0 1 8) [1, 1, 1] [2, 2, 2] 0).2
        ≠ [2, 2, 2] := by
  have h := rebin_interior_state (5/2) 0 1 3 8 2 [1, 1, 1] [2, 2, 2]
    (by norm_num) (by norm_num) (by norm_num) (by norm_num) (by norm_num)
  rw [h]
  constructor
  · norm_num [invertNZ]
  · norm_num [invertNZ]

/-- C6 amended: the overwrite-in-place optimization produces the same
result value as the pure functional formulation `rebin_spec_pure`, but
the caller's inverse-variance buffer comes back with every nonzero
entry replaced by its reciprocal whenever the main path runs; it keeps
its original values only on the two early exits. -/
theorem rebin_matches_pure_but_mutates (nb : ℕ) (w_in w_out fl iv : List ℚ) (idx : ℕ) :
    (rebin_to_common nb w_in w_out fl iv idx).1 = rebin_spec_pure nb w_in w_out fl iv idx ∧
    (rebin_to_common nb w_in w_out fl iv idx).2
      = (if w_in.length < 1 then iv
         else if rebinNoOverlap nb w_in w_out then iv else invertNZ iv) := by
  unfold rebin_to_common rebin_spec_pure
  split_ifs <;> exact ⟨rfl, rfl⟩

/-! ### Mask and threshold properties -/

lemma getD_default {α : Type} : ∀ (l : List α) (i : ℕ) (d : α), l.length ≤ i → l.getD i d = d
  | [], _, _, _ => rfl
  | _ :: _, 0, _, h => by simp at h
  | _ :: t, i + 1, d, h => by
    rw [List.getD_cons_succ]
    exact getD_default t i d (by simpa using h)

lemma getD_map_general {α β : Type} (f : α → β) (l : List α) (i : ℕ) (d : β) (dd : α)
    (hi : i < l.length) : (l.map f).getD i d = f (l.getD i dd) := by
  rw [List.getD_eq_getElem _ d (by simpa using hi), List.getD_eq_getElem _ dd hi,
    List.getElem_map]

lemma getD_zipWith {α β γ : Type} (f : α → β → γ) (l1 : List α) (l2 : List β) (i : ℕ)
    (d : γ) (d1 : α) (d2 : β) (h1 : i < l1.length) (h2 : i < l2.length) :
    (List.zipWith f l1 l2).getD i d = f (l1.getD i d1) (l2.getD i d2) := by
  rw [List.getD_eq_getElem _ d (by rw [List.length_zipWith]; omega),
    List.getD_eq_getElem _ d1 h1, List.getD_eq_getElem _ d2 h2, List.getElem_zipWith]

lemma length_binaryErosion (m : List Bool) : (binaryErosion m).length = m.length := by
  unfold binaryErosion
  rw [List.length_map, List.length_range]

lemma getD_binaryErosion (m : List Bool) (i : ℕ) (hi : i < m.length) :
    (binaryErosion m).getD i false
      = ((if i = 0 then true else m.getD (i - 1) true) && m.getD i true
          && m.getD (i + 1) true) := by
  unfold binaryErosion
  exact getD_map_range _ _ _ _ hi

lemma length_rebinFlOut (nb : ℕ) (w_in w_out fl : List ℚ) :
    (rebinFlOut nb w_in w_out fl).length = w_out.length := by
  unfold rebinFlOut
  dsimp only
  rw [List.length_zipWith, length_npBincount, length_npBincount, Nat.min_self]

lemma length_rebinVarOut (nb : ℕ) (w_in w_out iv : List ℚ) :
    (rebinVarOut nb w_in w_out iv).length = w_out.length := by
  unfold rebinVarOut
  dsimp only
  rw [List.length_zipWith, length_npBincount, length_npBincount, Nat.min_self]

lemma length_rebinMask (nb : ℕ) (w_in w_out fl : List ℚ) :
    (rebinMask nb w_in w_out fl).length = w_out.length := by
  unfold rebinMask
  rw [length_binaryErosion, List.length_map, length_rebinFlOut]

lemma length_ivFromVar (v : List ℚ) : (ivFromVar v).length = v.length := by
  unfold ivFromVar
  rw [List.length_map]

lemma length_rebinIvMasked (nb : ℕ) (w_in w_out fl iv : List ℚ) :
    (rebinIvMasked nb w_in w_out fl iv).length = w_out.length := by
  unfold rebinIvMasked
  rw [List.length_zipWith, length_ivFromVar, length_rebinVarOut, length_rebinMask,
    Nat.min_self]

/-- C7: in every successful rebinning, the returned coverage mask is
covered only where the accumulated flux is nonzero, any bin directly
adjacent to a zero-flux bin is uncovered even if its own flux is
nonzero (one-bin erosion at every zero-run boundary), and the returned
inverse variance is zero at every bin whose final mask is zero. -/
theorem rebin_mask_erosion (nb : ℕ) (w_in w_out fl iv : List ℚ) (idx : ℕ)
    (flOut ivOut : List ℚ) (mask : List Bool)
    (h : (rebin_to_common nb w_in w_out fl iv idx).1 = RebinResult.data flOut ivOut mask) :
    (∀ i, mask.getD i false = true → flOut.getD i 0 ≠ 0) ∧
    (∀ i, i + 1 < flOut.length →
      (flOut.getD i 0 = 0 → mask.getD (i + 1) false = false) ∧
      (flOut.getD (i + 1) 0 = 0 → mask.getD i false = false)) ∧
    (∀ i, mask.getD i false = false → ivOut.getD i 0 = 0) := by
  unfold rebin_to_common at h
  split_ifs at h
  dsimp only at h
  rw [RebinResult.data.injEq] at h
  obtain ⟨hA, hB, hC⟩ := h
  subst hA
  subst hB
  subst hC
  refine ⟨?_, ?_, ?_⟩
  · intro i hi
    by_cases hlen : i < (rebinMask nb w_in w_out fl).length
    · have hiL : i < (rebinFlOut nb w_in w_out fl).length := by
        rw [length_rebinFlOut]
        rw [length_rebinMask] at hlen
        exact hlen
      unfold rebinMask at hi
      rw [getD_binaryErosion _ i (by rw [List.length_map]; exact hiL)] at hi
      have hmid : ((rebinFlOut nb w_in w_out fl).map (fun x => decide (x ≠ 0))).getD i true
          = true := by
        rw [Bool.and_eq_true, Bool.and_eq_true] at hi
        exact hi.1.2
      rw [getD_map_general _ _ i true 0 hiL] at hmid
      exact of_decide_eq_true hmid
    · rw [getD_default _ _ _ (le_of_not_lt hlen)] at hi
      exact absurd hi (by simp)
  · intro i hlen2
    have hiL : i < (rebinFlOut nb w_in w_out fl).length := by omega
    have hi1L : i + 1 < (rebinFlOut nb w_in w_out fl).length := hlen2
    constructor
    · intro hzero
      unfold rebinMask
      rw [getD_binaryErosion _ (i + 1)
        (by rw [List.length_map]; exact hi1L)]
      have hfalse : ((rebinFlOut nb w_in w_out fl).map (fun x => decide (x ≠ 0))).getD i true
          = false := by
        rw [getD_map_general _ _ i true 0 hiL, hzero]
        simp
      rw [if_neg (Nat.succ_ne_zero i), Nat.add_sub_cancel, hfalse]
      rfl
    · intro hzero
      unfold rebinMask
      rw [getD_binaryErosion _ i (by rw [List.length_map]; exact hiL)]
      have hfalse : ((rebinFlOut nb w_in w_out fl).map
          (fun x => decide (x ≠ 0))).getD (i + 1) true = false := by
        rw [getD_map_general _ _ (i + 1) true 0 hi1L, hzero]
        simp
      rw [hfalse, Bool.and_false]
  · intro i hmask
    by_cases hlen3 : i < (rebinIvMasked nb w_in w_out fl iv).length
    · have hiV : i < (ivFromVar (rebinVarOut nb w_in w_out iv)).length := by
        rw [length_ivFromVar, length_rebinVarOut]
        rw [length_rebinIvMasked] at hlen3
        exact hlen3
      have hiM : i < (rebinMask nb w_in w_out fl).length := by
        rw [length_rebinMask]
        rw [length_rebinIvMasked] at hlen3
        exact hlen3
      unfold rebinIvMasked
      rw [getD_zipWith _ _ _ i 0 0 false hiV hiM, hmask]
      simp
    · rw [getD_default _ _ _ (le_of_not_lt hlen3)]

/-- Witness for `rebin_mask_erosion` on the concrete interior example. -/
theorem rebin_mask_erosion_witness :
    ((rebin_to_common 8 (arithGrid (5/2) 1 3) (arithGrid 0 1 8) [1, 1, 1] [2, 2, 2] 0).1
        = RebinResult.data (rebinFlOut 8 (arithGrid (5/2) 1 3) (arithGrid 0 1 8) [1, 1, 1])
            (rebinIvMasked 8 (arithGrid (5/2) 1 3) (arithGrid 0 1 8) [1, 1, 1] [2, 2, 2])
            (rebinMask 8 (arithGrid (5/2) 1 3) (arithGrid 0 1 8) [1, 1, 1])) ∧
    ((∀ i, (rebinMask 8 (arithGrid (5/2) 1 3) (arithGrid 0 1 8) [1, 1, 1]).getD i false = true →
        (rebinFlOut 8 (arithGrid (5/2) 1 3) (arithGrid 0 1 8) [1, 1, 1]).getD i 0 ≠ 0) ∧
     (∀ i, i + 1 < (rebinFlOut 8 (arithGrid (5/2) 1 3) (arithGrid 0 1 8) [1, 1, 1]).length →
        ((rebinFlOut 8 (arithGrid (5/2) 1 3) (arithGrid 0 1 8) [1, 1, 1]).getD i 0 = 0 →
          (rebinMask 8 (arithGrid (5/2) 1 3) (arithGrid 0 1 8) [1, 1, 1]).getD (i + 1) false
            = false) ∧
        ((rebinFlOut 8 (arithGrid (5/2) 1 3) (arithGrid 0 1 8) [1, 1, 1]).getD (i + 1) 0 = 0 →
          (rebinMask 8 (arithGrid (5/2) 1 3) (arithGrid 0 1 8) [1, 1, 1]).getD i false
            = false)) ∧
     (∀ i, (rebinMask 8 (arithGrid (5/2) 1 3) (arithGrid 0 1 8) [1, 1, 1]).getD i false = false →
        (rebinIvMasked 8 (arithGrid (5/2) 1 3) (arithGrid 0 1 8) [1, 1, 1] [2, 2, 2]).getD i 0
          = 0)) :=
  ⟨rebin_interior_result (5/2) 0 1 3 8 2 [1, 1, 1] [2, 2, 2]
     (by norm_num) (by norm_num) (by norm_num) (by norm_num) (by norm_num),
   rebin_mask_erosion 8 (arithGrid (5/2) 1 3) (arithGrid 0 1 8) [1, 1, 1] [2, 2, 2] 0 _ _ _
     (rebin_interior_result (5/2) 0 1 3 8 2 [1, 1, 1] [2, 2, 2]
       (by norm_num) (by norm_num) (by norm_num) (by norm_num) (by norm_num))⟩

/-- C5: in the rebinner's variance-to-inverse-variance conversion, an
accumulated variance entry of magnitude at most `1e-2` is not inverted
(the converted entry equals the variance itself, so its magnitude also
stays at most `1e-2` instead of blowing up), while an entry of
magnitude above `1e-2` is inverted to its reciprocal. -/
theorem rebin_variance_threshold (nb : ℕ) (w_in w_out iv : List ℚ) (i : ℕ)
    (hi : i < (rebinVarOut nb w_in w_out iv).length) :
    (|(rebinVarOut nb w_in w_out iv).getD i 0| ≤ 1 / 100 →
      (ivFromVar (rebinVarOut nb w_in w_out iv)).getD i 0
          = (rebinVarOut nb w_in w_out iv).getD i 0 ∧
      |(ivFromVar (rebinVarOut nb w_in w_out iv)).getD i 0| ≤ 1 / 100) ∧
    (1 / 100 < |(rebinVarOut nb w_in w_out iv).getD i 0| →
      (ivFromVar (rebinVarOut nb w_in w_out iv)).getD i 0
          = 1 / (rebinVarOut nb w_in w_out iv).getD i 0) := by
  have hval : (ivFromVar (rebinVarOut nb w_in w_out iv)).getD i 0
      = (if |(rebinVarOut nb w_in w_out iv).getD i 0| > 1 / 100
         then 1 / (rebinVarOut nb w_in w_out iv).getD i 0
         else (rebinVarOut nb w_in w_out iv).getD i 0) := by
    unfold ivFromVar
    exact getD_map_general _ _ i 0 0 hi
  constructor
  · intro hle
    rw [hval, if_neg (not_lt.mpr hle)]
    exact ⟨rfl, hle⟩
  · intro hlt
    rw [hval, if_pos hlt]

/-- Witness for `rebin_variance_threshold` at bin 3 of the concrete
interior example, where the accumulated variance is 1/4. -/
theorem rebin_variance_threshold_witness :
    (3 < (rebinVarOut 8 (arithGrid (5/2) 1 3) (arithGrid 0 1 8) [2, 2, 2]).length) ∧
    ((|(rebinVarOut 8 (arithGrid (5/2) 1 3) (arithGrid 0 1 8) [2, 2, 2]).getD 3 0| ≤ 1 / 100 →
      (ivFromVar (rebinVarOut 8 (arithGrid (5/2) 1 3) (arithGrid 0 1 8) [2, 2, 2])).getD 3 0
          = (rebinVarOut 8 (arithGrid (5/2) 1 3) (arithGrid 0 1 8) [2, 2, 2]).getD 3 0 ∧
      |(ivFromVar (rebinVarOut 8 (arithGrid (5/2) 1 3) (arithGrid 0 1 8) [2, 2, 2])).getD 3 0|
          ≤ 1 / 100) ∧
     (1 / 100 < |(rebinVarOut 8 (arithGrid (5/2) 1 3) (arithGrid 0 1 8) [2, 2, 2]).getD 3 0| →
      (ivFromVar (rebinVarOut 8 (arithGrid (5/2) 1 3) (arithGrid 0 1 8) [2, 2, 2])).getD 3 0
          = 1 / (rebinVarOut 8 (arithGrid (5/2) 1 3) (arithGrid 0 1 8) [2, 2, 2]).getD 3 0)) :=
  ⟨by rw [length_rebinVarOut, length_arithGrid]; omega,
   rebin_variance_threshold 8 (arithGrid (5/2) 1 3) (arithGrid 0 1 8) [2, 2, 2] 3
     (by rw [length_rebinVarOut, length_arithGrid]; omega)⟩

/-! ### Renormalizer claims -/

/-- C8 counterexample: equal medians do not force `scale = 1`.  With
rebinned flux `[-1]` and a reference spectrum whose selected slice has
median `-1`, both medians equal `-1`, yet
`scale = norm_val / abs(spec_val) = -1` and the rescaled flux `[1]`
differs from the input flux `[-1]`. -/
theorem renorm_equal_medians_scale_not_one :
    spec_val_of [-1] = norm_val_of [1, 10, 20] [0, -1, 0] [5, 15] ∧
    renorm_scale [1, 10, 20] [0, -1, 0] [5, 15] [-1] ≠ 1 ∧
    (renorm_apply (renorm_scale [1, 10, 20] [0, -1, 0] [5, 15] [-1]) [-1] [1]).1 ≠ [-1] := by
  have hspec : spec_val_of [-1] = -1 := by
    norm_num [spec_val_of, npMedian, sortQ, insertSorted]
  have hnorm : norm_val_of [1, 10, 20] [0, -1, 0] [5, 15] = -1 := by
    norm_num [norm_val_of, norm_bounds, npArgmax, pyGet, pySlice, npMedian, sortQ,
      insertSorted, List.findIdx_cons]
  have hscale : renorm_scale [1, 10, 20] [0, -1, 0] [5, 15] [-1] = -1 := by
    unfold renorm_scale
    rw [hspec, hnorm]
    norm_num
  refine ⟨by rw [hspec, hnorm], by rw [hscale]; norm_num, ?_⟩
  rw [hscale]
  norm_num [renorm_apply]

/-- C8 amended: whenever the median of the nonzero rebinned flux
equals the median of the reference slice and that common value is
positive, the scale equals 1 and both the flux and the inverse
variance pass through unchanged.  (For a negative common value the
code produces `scale = -1` instead, flipping the flux sign.) -/
theorem renorm_scale_one_of_pos (w_scale spectra waves_i fl1 iv1 : List ℚ)
    (heq : spec_val_of fl1 = norm_val_of w_scale spectra waves_i)
    (hpos : 0 < spec_val_of fl1) :
    renorm_scale w_scale spectra waves_i fl1 = 1 ∧
    (renorm_apply (renorm_scale w_scale spectra waves_i fl1) fl1 iv1).1 = fl1 ∧
    (renorm_apply (renorm_scale w_scale spectra waves_i fl1) fl1 iv1).2 = iv1 := by
  have hs : renorm_scale w_scale spectra waves_i fl1 = 1 := by
    unfold renorm_scale
    rw [← heq, abs_of_pos hpos, div_self (ne_of_gt hpos)]
  refine ⟨hs, ?_, ?_⟩
  · rw [hs]
    unfold renorm_apply
    simp
  · rw [hs]
    unfold renorm_apply
    simp

/-- Witness for `renorm_scale_one_of_pos` with both medians equal
to 1. -/
theorem renorm_scale_one_of_pos_witness :
    (spec_val_of [1] = norm_val_of [1, 10, 20] [0, 1, 0] [5, 15] ∧ 0 < spec_val_of [1]) ∧
    (renorm_scale [1, 10, 20] [0, 1, 0] [5, 15] [1] = 1 ∧
     (renorm_apply (renorm_scale [1, 10, 20] [0, 1, 0] [5, 15] [1]) [1] [7]).1 = [1] ∧
     (renorm_apply (renorm_scale [1, 10, 20] [0, 1, 0] [5, 15] [1]) [1] [7]).2 = [7]) := by
  have h1 : spec_val_of [1] = norm_val_of [1, 10, 20] [0, 1, 0] [5, 15] := by
    norm_num [spec_val_of, norm_val_of, norm_bounds, npArgmax, pyGet, pySlice, npMedian,
      sortQ, insertSorted, List.findIdx_cons]
  have h2 : 0 < spec_val_of [1] := by
    norm_num [spec_val_of, npMedian, sortQ, insertSorted]
  exact ⟨⟨h1, h2⟩, renorm_scale_one_of_pos [1, 10, 20] [0, 1, 0] [5, 15] [1] [7] h1 h2⟩

/-! ### get_wave claims -/

/-- C3 counterexample: the grid length is the ceiling, not the floor,
of `log10(wavemax/wavemin)/dloglam`.  With wavemin 1, wavemax 10 and
dloglam 2/3 the quotient is 3/2; `np.arange(1.5)` yields 2 points
while the claimed floor is 1. -/
theorem get_wave_length_not_floor :
    (get_wave 1 10 (2/3)).length ≠ ⌊Real.logb 10 ((10 : ℝ) / 1) / (2/3)⌋₊ := by
  have hq : Real.logb 10 ((10 : ℝ) / 1) = 1 := by
    rw [div_one]
    exact Real.logb_self_eq_one (by norm_num : (1 : ℝ) < 10)
  have h32 : (1 : ℝ) / (2/3) = 3/2 := by norm_num
  have hlen : (get_wave 1 10 (2/3)).length = 2 := by
    unfold get_wave
    rw [List.length_map, List.length_range, hq, h32]
    refine (Nat.ceil_eq_iff ?_).mpr ?_ <;> norm_num
  have hfl : ⌊Real.logb 10 ((10 : ℝ) / 1) / (2/3)⌋₊ = 1 := by
    rw [hq, h32]
    refine (Nat.floor_eq_iff ?_).mpr ?_ <;> norm_num
  rw [hlen, hfl]
  omega

/-- C3 amended: for `wavemax > wavemin > 0` and `dloglam > 0`, the
grid returned by `get_wave` has length
`ceil(log10(wavemax/wavemin)/dloglam)` (the behaviour of `np.arange`
on a fractional bound), element `i` equals
`10 ^ (log10 wavemin + i * dloglam)`, and consecutive ratios all equal
`10 ^ dloglam`. -/
theorem get_wave_grid (wavemin wavemax dloglam : ℝ)
    (h0 : 0 < wavemin) (h1 : wavemin < wavemax) (hd : 0 < dloglam) :
    (get_wave wavemin wavemax dloglam).length
        = ⌈Real.logb 10 (wavemax / wavemin) / dloglam⌉₊ ∧
    (∀ i, i < (get_wave wavemin wavemax dloglam).length →
      (get_wave wavemin wavemax dloglam).getD i 0
        = (10 : ℝ) ^ (Real.logb 10 wavemin + dloglam * i)) ∧
    (∀ i, i + 1 < (get_wave wavemin wavemax dloglam).length →
      (get_wave wavemin wavemax dloglam).getD (i + 1) 0
        / (get_wave wavemin wavemax dloglam).getD i 0 = (10 : ℝ) ^ dloglam) := by
  refine ⟨?_, ?_, ?_⟩
  · unfold get_wave
    rw [List.length_map, List.length_range]
  · intro i hi
    unfold get_wave at hi ⊢
    rw [List.length_map, List.length_range] at hi
    exact getD_map_range _ _ _ _ hi
  · intro i hi
    unfold get_wave at hi ⊢
    rw [List.length_map, List.length_range] at hi
    rw [getD_map_range _ _ _ _ hi, getD_map_range _ _ _ _ (by omega)]
    rw [← Real.rpow_sub (by norm_num : (0 : ℝ) < 10)]
    congr 1
    push_cast
    ring

/-- Witness for `get_wave_grid` at wavemin 1, wavemax 10,
dloglam 2/3. -/
theorem get_wave_grid_witness :
    ((0 : ℝ) < 1 ∧ (1 : ℝ) < 10 ∧ (0 : ℝ) < 2/3) ∧
    ((get_wave 1 10 (2/3)).length = ⌈Real.logb 10 ((10 : ℝ) / 1) / (2/3)⌉₊ ∧
     (∀ i, i < (get_wave 1 10 (2/3)).length →
       (get_wave 1 10 (2/3)).getD i 0
         = (10 : ℝ) ^ (Real.logb 10 1 + (2/3) * i)) ∧
     (∀ i, i + 1 < (get_wave 1 10 (2/3)).length →
       (get_wave 1 10 (2/3)).getD (i + 1) 0
         / (get_wave 1 10 (2/3)).getD i 0 = (10 : ℝ) ^ ((2 : ℝ)/3))) :=
  ⟨⟨by norm_num, by norm_num, by norm_num⟩,
   get_wave_grid 1 10 (2/3) (by norm_num) (by norm_num) (by norm_num)⟩

/-! ### add_noise claims -/

/-- C4: `add_noise` never reads its `fl` parameter.  The loop runs
over the module-level `fl_shift` and `w_shift`, so two calls with
different `fl` arguments but the same seed, flag and module state
return identical noisy-flux and inverse-variance lists. -/
theorem add_noise_ignores_fl {σ : Type} (g : NumpyRNG σ) (seed : ℤ)
    (fl1 fl2 flShift wShift : List (List ℝ)) (flag : Bool) :
    add_noise g fl1 seed flShift wShift flag = add_noise g fl2 seed flShift wShift flag :=
  rfl

/-- C9: `add_noise` builds a fresh generator state from its seed on
every call and visits the objects in a fixed order, so two runs with
the same seed, flag and inputs produce identical outputs. -/
theorem add_noise_reproducible {σ : Type} (g : NumpyRNG σ) (seed1 seed2 : ℤ)
    (fl flShift wShift : List (List ℝ)) (flag : Bool) (h : seed1 = seed2) :
    add_noise g fl seed1 flShift wShift flag = add_noise g fl seed2 flShift wShift flag := by
  rw [h]

/-- A concrete deterministic generator instance over a unit state. -/
def trivialRNG : NumpyRNG Unit where
  default_rng := fun _ => ()
  poisson := fun s l => (l, s)
  uniform := fun s a _ => (a, s)
  normal := fun s m _ n => (List.replicate n m, s)

/-- Witness for `add_noise_reproducible` with the trivial generator. -/
theorem add_noise_reproducible_witness :
    (1 : ℤ) = 1 ∧
    add_noise trivialRNG [] 1 [[1]] [[1]] true = add_noise trivialRNG [] 1 [[1]] [[1]] true :=
  ⟨rfl, add_noise_reproducible trivialRNG 1 1 [] [[1]] [[1]] true rfl⟩

lemma addNoiseLoop_no_noise {σ : Type} (g : NumpyRNG σ) (flShift wShift : List (List ℝ)) :
    ∀ (idxs : List ℕ) (s : σ),
      (addNoiseLoop g false flShift wShift idxs s).1
        = idxs.map (fun i => List.zipWith (· / ·) (flShift.getD i []) (wShift.getD i [])) ∧
      (addNoiseLoop g false flShift wShift idxs s).2.1
        = idxs.map (fun i => (List.zipWith (· / ·) (flShift.getD i []) (wShift.getD i [])).map
            (fun x => if x = 0 then (0 : ℝ) else 1)) := by
  intro idxs
  induction idxs with
  | nil => intro s; exact ⟨rfl, rfl⟩
  | cons i rest ih =>
    intro s
    simp only [addNoiseLoop, List.map_cons]
    constructor
    · rw [List.cons.injEq]
      exact ⟨rfl, (ih _).1⟩
    · rw [List.cons.injEq]
      exact ⟨rfl, (ih _).2⟩

/-- C10: with the `add_noise` flag off, the output flux of each object
is the deshifted flux divided elementwise by the rest-frame
wavelengths, the output inverse variance is the binary mask of its
nonzero entries, and neither depends on the seed (the uniform and
normal draws still advance the generator but their values are never
used). -/
theorem add_noise_flag_false {σ : Type} (g : NumpyRNG σ) (fl flShift wShift : List (List ℝ))
    (seed1 seed2 : ℤ) :
    add_noise g fl seed1 flShift wShift false = add_noise g fl seed2 flShift wShift false ∧
    (add_noise g fl seed1 flShift wShift false).1
      = (List.range flShift.length).map (fun i =>
          List.zipWith (· / ·) (flShift.getD i []) (wShift.getD i [])) ∧
    (add_noise g fl seed1 flShift wShift false).2
      = (List.range flShift.length).map (fun i =>
          (List.zipWith (· / ·) (flShift.getD i []) (wShift.getD i [])).map
            (fun x => if x = 0 then (0 : ℝ) else 1)) := by
  have h1 := addNoiseLoop_no_noise g flShift wShift (List.range flShift.length)
    (g.default_rng seed1)
  have h2 := addNoiseLoop_no_noise g flShift wShift (List.range flShift.length)
    (g.default_rng seed2)
  unfold add_noise
  dsimp only
  refine ⟨Prod.ext_iff.mpr ⟨?_, ?_⟩, h1.1, h1.2⟩
  · rw [h1.1, h2.1]
  · rw [h1.2, h2.2]
